import Mathlib

/-!
Verification of the IvleDownloader synchronization engine
(`ivle_downloader.py`), as a shallow embedding in Lean 4.

The embedding models:
* the URL-shape classification of remote links (`_download_files_from_url`,
  lines 224-235),
* the recursive folder walk with its session (WebDriver) lifecycle, the
  local filesystem as a listing function, and the download destinations
  determined by each session's download-directory binding,
* the completion watcher (`_update_folder`) as a step function driven by
  the poll results of the browser's downloads view,
* the folder materializer (`_create_folders`),
* top-level branch enumeration (`_find_all_modules_files_urls`) and the
  branch dispatch (`_download_all`, `_download_modules`, `start`,
  `__main__`).

Machine-level effects (actual HTTP, rendering, clock time) are abstracted:
the remote tree is a well-founded tree of links, the filesystem is a map
from paths to listings, and each walk produces an event trace recording
directory creations, session acquisitions/closings, pending-set handoffs
and downloads.
-/

namespace IvleDownloader

/-- A local path, as the list of directory-entry names from some root. -/
abbrev Path := List String

/-- The local filesystem, as the current listing (`os.listdir`) of every
path.  Only listings of directories that exist are ever consulted by the
code; creating a directory resets the listing at the created path to `[]`
(a fresh directory is empty). -/
abbrev FS := Path → List String

/-- Python's `x in lst` membership test on a list of strings. -/
def memb (x : String) : List String → Bool
  | [] => false
  | y :: ys => if y = x then true else memb x ys

/-- Python's substring test `pat in s`, on explicit character lists. -/
def containsSubAux (pat : List Char) : List Char → Bool
  | [] => pat.isEmpty
  | c :: cs => pat.isPrefixOf (c :: cs) || containsSubAux pat cs

/-- Python's substring test `pat in s` for strings. -/
def containsSub (s pat : String) : Bool := containsSubAux pat.data s.data

/-- Python's `'#' in url`. -/
def hasHash (u : String) : Bool := u.data.any (fun c => c == '#')

/-- Python's `'/' in module`. -/
def hasSlash (m : String) : Bool := m.data.any (fun c => c == '/')

/-- Python dict assignment `d[k] = v` on an insertion-ordered dictionary
represented as an association list: an existing key keeps its position and
gets the new value, a new key is appended at the end. -/
def pyInsert : List (String × String) → String → String → List (String × String)
  | [], k, v => [(k, v)]
  | (k', v') :: rest, k, v =>
    if k' = k then (k', v) :: rest else (k', v') :: pyInsert rest k v

/-- Python's `s.split(sep)` on character lists. -/
def pySplit (sep : Char) : List Char → List (List Char)
  | [] => [[]]
  | c :: cs =>
    if c = sep then [] :: pySplit sep cs
    else
      match pySplit sep cs with
      | [] => [[c]]
      | p :: ps => (c :: p) :: ps

/-- Python's `s.replace(pat, rep)` (all non-overlapping occurrences, left
to right); the fuel argument is the length of the remaining input, each
step consumes at least one character. -/
def pyReplaceAux (pat rep : List Char) : Nat → List Char → List Char
  | _, [] => []
  | 0, s => s
  | fuel + 1, c :: cs =>
    if !pat.isEmpty && pat.isPrefixOf (c :: cs) then
      rep ++ pyReplaceAux pat rep fuel (List.drop (pat.length - 1) cs)
    else
      c :: pyReplaceAux pat rep fuel cs

/-- Python's `s.replace(pat, rep)` for strings. -/
def pyReplace (s pat rep : String) : String :=
  String.mk (pyReplaceAux pat.data rep.data s.data.length s.data)

/-! ## Link classification (`_download_files_from_url`, lines 224-227)

```python
f_url = element.get_attribute('href')
is_folder = 'default.aspx' in f_url and '#' not in f_url
is_file = 'download.aspx' in f_url and '#' not in f_url
if is_folder: ...
elif is_file: ...
```
-/

/-- `is_folder = 'default.aspx' in f_url and '#' not in f_url` (line 226). -/
def is_folder (u : String) : Bool := containsSub u "default.aspx" && !hasHash u

/-- `is_file = 'download.aspx' in f_url and '#' not in f_url` (line 227). -/
def is_file (u : String) : Bool := containsSub u "download.aspx" && !hasHash u

/-- The three ways the walk treats a child link. -/
inductive Kind where
  | folder
  | file
  | ignored
deriving DecidableEq

/-- The walk's `if is_folder: ... elif is_file: ... else` dispatch
(lines 228-235) as a classification function. -/
def classify (u : String) : Kind :=
  if is_folder u then Kind.folder
  else if is_file u then Kind.file
  else Kind.ignored

/-! ## Folder materializer (`_create_folders`, lines 71-86)

```python
if new_folder not in os.listdir(path):
    os.mkdir('{}/{}'.format(path, new_folder))
```
-/

/-- `_create_folders`: creates `path/new_folder` when absent from the
current listing of `path`; the returned flag records whether `os.mkdir`
ran (used for the event trace).  A created directory has the empty
listing. -/
def create_folders (fs : FS) (path : Path) (newFolder : String) : FS × Bool :=
  if memb newFolder (fs path) then (fs, false)
  else
    (fun q =>
      if q = path then fs path ++ [newFolder]
      else if q = path ++ [newFolder] then []
      else fs q, true)

/-- Whether every step of `p`, read from the base `base`, is listed in its
parent directory (the path denotes an existing directory chain). -/
def pathExB (fs : FS) : Path → Path → Bool
  | _, [] => true
  | base, n :: rest => memb n (fs base) && pathExB fs (base ++ [n]) rest

/-- A completed download of file `n` appears in the listing of the
session's bound download directory `p`. -/
def fsAddFile (fs : FS) (p : Path) (n : String) : FS :=
  fun q => if q = p then fs q ++ [n] else fs q

/-- The effect on the filesystem of `_update_folder` finishing every file
of the pending dictionary: each lands in the download directory `dest` of
the session it was fetched with. -/
def downloadAll (fs : FS) (dest : Path) (files : List (String × String)) : FS :=
  files.foldl (fun f nv => fsAddFile f dest nv.1) fs

/-! ## Remote tree and the recursive walk -/

mutual
/-- A rendered link of a remote listing: its visible text, its `href`, and
the links of the page it leads to (consulted only when the walk recurses
into it as a folder).  The tree is well-founded, matching the walk's
implicit assumption that the remote hierarchy is acyclic. -/
inductive Link where
  | mk (text : String) (url : String) (children : LinkList)

/-- The child links of one remote listing container, in listing order. -/
inductive LinkList where
  | nil
  | cons (l : Link) (ls : LinkList)
end

/-- The observable actions of a sync run.  Sessions are numbered; a
session's `binding` is its download-directory preference (`none` = the
process-wide default directory), fixed at acquisition. -/
inductive Ev where
  | acquire (sid : Nat) (binding : Option Path)
  | mkdirE (path : Path) (name : String)
  | enterB (module : String)
  | handPending (sid : Nat) (pending : List (String × String))
  | download (sid : Nat) (dest : Path) (name : String) (url : String)
  | closeE (sid : Nat)
deriving DecidableEq

/-- Result of processing one child link. -/
structure LinkRes where
  fs : FS
  ctr : Nat
  trace : List Ev
  cand : Option (String × String)

/-- Result of processing a list of child links (the loop of lines
224-235), with the pending-downloads dictionary built so far. -/
structure ListRes where
  fs : FS
  ctr : Nat
  trace : List Ev
  pend : List (String × String)

/-- Result of a full page walk or of the branch loop. -/
structure PageRes where
  fs : FS
  ctr : Nat
  trace : List Ev

/-- The download events `_update_folder` produces for a pending set, in
dictionary order. -/
def dlEvs (sid : Nat) (dest : Path) (pend : List (String × String)) : List Ev :=
  pend.map (fun nv => Ev.download sid dest nv.1 nv.2)

mutual
/-- One iteration of the child loop of `_download_files_from_url`
(lines 224-235).  A folder child is materialized (`_create_folders`),
then a fresh session bound to the child path is acquired
(`self._get_driver(f_path)`) and the child page is walked with it; the
child page's pending set is handed to `_update_folder` with that session
(whose downloads land in the child path) and the session is closed.
A file child contributes `(text, url)` to the pending dictionary when
`text` is absent from the current listing of `path`. -/
def walkLink : Link → Path → FS → Nat → LinkRes
  | Link.mk text url cs, path, fs, ctr =>
    match classify url with
    | Kind.folder =>
      let fpath := path ++ [text]
      let c := create_folders fs path text
      let mkE : List Ev := if c.2 then [Ev.mkdirE path text] else []
      let r := walkList cs fpath c.1 (ctr + 1) []
      let fs2 := downloadAll r.fs fpath r.pend
      ⟨fs2, r.ctr,
        mkE ++ Ev.acquire ctr (some fpath) ::
          (r.trace ++ Ev.handPending ctr r.pend ::
            (dlEvs ctr fpath r.pend ++ [Ev.closeE ctr])),
        none⟩
    | Kind.file =>
      ⟨fs, ctr, [], if memb text (fs path) then none else some (text, url)⟩
    | Kind.ignored => ⟨fs, ctr, [], none⟩

/-- The child loop of `_download_files_from_url` over a listing, threading
the filesystem, the session counter, and the pending dictionary
(`missing_files`). -/
def walkList : LinkList → Path → FS → Nat → List (String × String) → ListRes
  | LinkList.nil, _, fs, ctr, acc => ⟨fs, ctr, [], acc⟩
  | LinkList.cons l ls, path, fs, ctr, acc =>
    let r := walkLink l path fs ctr
    let acc2 :=
      match r.cand with
      | none => acc
      | some kv => pyInsert acc kv.1 kv.2
    let rr := walkList ls path r.fs r.ctr acc2
    ⟨rr.fs, rr.ctr, r.trace ++ rr.trace, rr.pend⟩
end

/-- `_download_files_from_url(url, path, driver)` (lines 204-237): walk the
listing `links` of the page at `url`, with the current session `sid` whose
download-directory binding is `binding`; afterwards hand the pending set to
`_update_folder` (whose downloads land in the session's effective download
directory, the default directory `dflt` when the binding is absent) and
close the session. -/
def download_files_from_url (dflt : Path) (links : LinkList) (path : Path)
    (sid : Nat) (binding : Option Path) (fs : FS) (ctr : Nat) : PageRes :=
  let r := walkList links path fs ctr []
  let dest := binding.getD dflt
  ⟨downloadAll r.fs dest r.pend, r.ctr,
    r.trace ++ Ev.handPending sid r.pend :: (dlEvs sid dest r.pend ++ [Ev.closeE sid])⟩

/-! ## Completion watcher (`_update_folder`, lines 88-118) -/

/-- A control of the browser's downloads view (`chrome://downloads`). -/
structure Button where
  text : String

/-- `get_download_status` (lines 107-112): whether an active transfer is
in progress, detected as a 'Pause' control among the view's buttons
(`find_elements` always returns a list, so the list branch is taken). -/
def get_download_status (buttons : List Button) : Bool :=
  memb "Pause" (buttons.map (fun b => b.text))

/-- Watcher state: files whose download was triggered so far (in trigger
order), the file currently being polled, and the files not yet started. -/
structure WatchSt where
  started : List (String × String)
  current : Option (String × String)
  todo : List (String × String)

/-- Entering `_update_folder`'s loop: trigger the first file's download. -/
def update_folder_start (files : List (String × String)) : WatchSt :=
  match files with
  | [] => ⟨[], none, []⟩
  | f :: rest => ⟨[f], some f, rest⟩

/-- One poll of the watcher (lines 114-118): while a 'Pause' control
exists the current transfer is in progress and the watcher stays on the
same file; when it disappears the file is treated as succeeded and the
next file's download is triggered. -/
def update_folder_step (buttons : List Button) (s : WatchSt) : WatchSt :=
  match s.current with
  | none => s
  | some _ =>
    if get_download_status buttons then s
    else
      match s.todo with
      | [] => ⟨s.started, none, []⟩
      | g :: rest => ⟨s.started ++ [g], some g, rest⟩

/-- The watcher driven by a finite sequence of poll observations. -/
def update_folder_run (polls : List (List Button)) (s : WatchSt) : WatchSt :=
  polls.foldl (fun st bs => update_folder_step bs st) s

/-! ## Branch enumeration (`_find_all_modules_files_urls`, lines 36-69) -/

/-- `module.split('/')[0]` applied under the `'/' in module` guard
(lines 63-64): the normalization of a branch identifier. -/
def normKey (m : String) : String :=
  if hasSlash m then String.mk ((pySplit '/' m.data).headD []) else m

/-- The loop body of `_find_all_modules_files_urls`: each `<u>` element
either has no `<a>` descendant (`none`, the `NoSuchElementException`
branch of lines 66-68) or yields the link's text and href.  An entry whose
URL lacks `'Default.aspx'` breaks the loop (lines 58-60); otherwise
`'Module'` is replaced by `'File'` in the URL, the identifier is
normalized, and the pair is stored in the dictionary. -/
def find_all_go : List (Option (String × String)) → List (String × String) →
    List (String × String)
  | [], urls => urls
  | none :: rest, urls => find_all_go rest urls
  | some (m, u) :: rest, urls =>
    if containsSub u "Default.aspx" then
      find_all_go rest (pyInsert urls (normKey m) (pyReplace u "Module" "File"))
    else urls

/-- `_find_all_modules_files_urls` over the top-level entries. -/
def find_all_modules_files_urls (entries : List (Option (String × String))) :
    List (String × String) :=
  find_all_go entries []

/-- An entry that does not end enumeration: either it has no link (the
exception branch) or its URL passes the `'Default.aspx'` opened check. -/
def entryOpenB : Option (String × String) → Bool
  | none => true
  | some mu => containsSub mu.2 "Default.aspx"

/-! ## Branch dispatch (`_download_all`, `_download_modules`, `start`,
`__main__`, lines 164-266) -/

/-- `_download_all` (lines 164-180): for each enumerated branch, create
`root/module` if absent, enter it, walk it with the current session (whose
binding is the default directory: `start` and each per-branch
`self._get_driver()` create the driver without a download-path
preference), then acquire a fresh default-bound session for the next
branch. -/
def download_all (dflt root : Path) :
    List (String × String × LinkList) → FS → Nat → Nat → PageRes
  | [], fs, ctr, _ => ⟨fs, ctr, []⟩
  | (m, _, links) :: rest, fs, ctr, sid =>
    let c := create_folders fs root m
    let mkE : List Ev := if c.2 then [Ev.mkdirE root m] else []
    let w := download_files_from_url dflt links (root ++ [m]) sid none c.1 ctr
    let rr := download_all dflt root rest w.fs (w.ctr + 1) w.ctr
    ⟨rr.fs, rr.ctr,
      mkE ++ Ev.enterB m :: (w.trace ++ Ev.acquire w.ctr none :: rr.trace)⟩

/-- `_download_modules(modules, driver)` (lines 182-202).  `modules` is
whatever `start` passed along: `None` when the CLI gave no `-m` option, a
list of identifiers otherwise.  `module not in None` raises `TypeError`,
modelled as the error case. -/
def download_modules (dflt root : Path) (sel : Option (List String)) :
    List (String × String × LinkList) → FS → Nat → Nat → Except String PageRes
  | [], fs, ctr, _ => Except.ok ⟨fs, ctr, []⟩
  | (m, _, links) :: rest, fs, ctr, sid =>
    match sel with
    | none => Except.error "TypeError: argument of type NoneType is not iterable"
    | some sl =>
      if memb m sl then
        let c := create_folders fs root m
        let mkE : List Ev := if c.2 then [Ev.mkdirE root m] else []
        let w := download_files_from_url dflt links (root ++ [m]) sid none c.1 ctr
        match download_modules dflt root sel rest w.fs (w.ctr + 1) w.ctr with
        | Except.ok rr =>
          Except.ok ⟨rr.fs, rr.ctr,
            mkE ++ Ev.enterB m :: (w.trace ++ Ev.acquire w.ctr none :: rr.trace)⟩
        | Except.error e => Except.error e
      else download_modules dflt root sel rest fs ctr sid

/-- `start(*modules)` (lines 239-249): a nonempty argument tuple routes to
`_download_modules(modules[0], driver)`, an empty one to
`_download_all(driver)`.  `branches` pairs each enumerated mapping entry
with the links of its page; `sid` is the initial default-bound session. -/
def startRun (dflt root : Path) (args : List (Option (List String)))
    (branches : List (String × String × LinkList)) (fs : FS) (ctr sid : Nat) :
    Except String PageRes :=
  match args with
  | [] => Except.ok (download_all dflt root branches fs ctr sid)
  | a :: _ => download_modules dflt root a branches fs ctr sid

/-- The `__main__` block (lines 252-266): `start(args.modules)` is always
called with one positional argument, the parsed `-m` value (`None` when
the option is absent). -/
def mainRun (dflt root : Path) (cliModules : Option (List String))
    (branches : List (String × String × LinkList)) (fs : FS) (ctr sid : Nat) :
    Except String PageRes :=
  startRun dflt root [cliModules] branches fs ctr sid

/-! ## Trace observations -/

/-- The download events of a trace, in order. -/
def downloadsOf (t : List Ev) : List Ev :=
  t.filter (fun e => match e with | Ev.download _ _ _ _ => true | _ => false)

/-- The branch names entered, in order (`'Entering {}...'` lines). -/
def enterNames (t : List Ev) : List String :=
  t.filterMap (fun e => match e with | Ev.enterB m => some m | _ => none)

/-- Whether an event is an acquisition of session `s`. -/
def evAcquires (s : Nat) : Ev → Bool
  | Ev.acquire s' _ => s' == s
  | _ => false

/-- Events a folder walk at `path` may emit: directory creations only at
`path` or below, and never a branch-entering event. -/
def evLocal (path : Path) : Ev → Prop
  | Ev.mkdirE p _ => path.length ≤ p.length
  | Ev.enterB _ => False
  | _ => True

/-! ## Concrete instances used to exercise the general theorems -/

/-- A one-folder-one-file remote listing: folder `A` containing file `f`. -/
def exLinksC3 : LinkList :=
  LinkList.cons
    (Link.mk "A" "a/default.aspx"
      (LinkList.cons (Link.mk "f" "b/download.aspx" LinkList.nil) LinkList.nil))
    LinkList.nil

/-- The walk of `exLinksC3` at `["r"]` with session 0 (default binding),
starting from an empty local tree. -/
def exPageC3 : PageRes :=
  download_files_from_url ["D"] exLinksC3 ["r"] 0 none (fun _ => []) 1

/-- A one-branch mapping whose branch page holds a single top-level file
link. -/
def exBranchesC2 : List (String × String × LinkList) :=
  [("CS101", "u1",
    LinkList.cons (Link.mk "fileY" "http://x/download.aspx?id=1" LinkList.nil)
      LinkList.nil)]

/-- First sync run of `exBranchesC2` from an empty local tree (root
`["root"]`, default download directory `["dflt"]`, initial default-bound
session 0). -/
def exRun1C2 : PageRes :=
  download_all ["dflt"] ["root"] exBranchesC2 (fun _ => []) 1 0

/-- Second sync run against the unchanged remote tree, starting from the
local state the first run left behind. -/
def exRun2C2 : PageRes :=
  download_all ["dflt"] ["root"] exBranchesC2 exRun1C2.fs 1 0

/-- A two-branch enumerated mapping with empty branch pages. -/
def exBranchesC4 : List (String × String × LinkList) :=
  [("CS101", "u1", LinkList.nil), ("CS102", "u2", LinkList.nil)]

/-! # Theorems -/

/-! ## Generic helpers -/

theorem memb_iff {x : String} : ∀ {l : List String}, memb x l = true ↔ x ∈ l
  | [] => by simp [memb]
  | y :: ys => by
    by_cases h : y = x
    · subst h; simp [memb]
    · simp only [memb, if_neg h, List.mem_cons]
      rw [memb_iff]
      constructor
      · exact Or.inr
      · rintro (h' | h')
        · exact absurd h'.symm h
        · exact h'

theorem memb_append_self (n : String) : ∀ l : List String, memb n (l ++ [n]) = true
  | [] => by simp [memb]
  | y :: ys => by
    simp only [List.cons_append, memb]
    split
    · rfl
    · exact memb_append_self n ys

theorem eq_of_mem_of_len_le_one {α : Type} {l : List α} {x y : α}
    (h : l.length ≤ 1) (hx : x ∈ l) (hy : y ∈ l) : x = y := by
  match l with
  | [] => exact absurd hx (List.not_mem_nil x)
  | [a] =>
    rw [List.mem_singleton] at hx hy
    rw [hx, hy]
  | a :: b :: t => simp at h

theorem sublist_app_l {α : Type} {l t1 t2 : List α} (h : List.Sublist l t1) :
    List.Sublist l (t1 ++ t2) :=
  h.trans (List.sublist_append_left t1 t2)

theorem sublist_app_r {α : Type} {l t1 t2 : List α} (h : List.Sublist l t2) :
    List.Sublist l (t1 ++ t2) :=
  h.trans (List.sublist_append_right t1 t2)

theorem mem_ite_nil_elim {α : Type} {c : Bool} {e : α} {l : List α}
    (h : e ∈ (if c = true then l else [])) : c = true ∧ e ∈ l := by
  cases c
  · simp at h
  · exact ⟨rfl, by simpa using h⟩

theorem takeWhile_all {p : Char → Bool} :
    ∀ {l : List Char}, (∀ c ∈ l, p c = true) → l.takeWhile p = l
  | [], _ => rfl
  | c :: cs, h => by
    have hc : p c = true := h c (List.mem_cons_self c cs)
    simp only [List.takeWhile_cons, hc, if_true]
    rw [takeWhile_all (fun x hx => h x (List.mem_cons_of_mem c hx))]

/-! ## Helpers about the event vocabulary -/

theorem dlEvs_mem {sid : Nat} {dest : Path} {pend : List (String × String)} {e : Ev}
    (h : e ∈ dlEvs sid dest pend) :
    ∃ nv, nv ∈ pend ∧ e = Ev.download sid dest nv.1 nv.2 := by
  simp only [dlEvs, List.mem_map] at h
  obtain ⟨nv, hnv, he⟩ := h
  exact ⟨nv, hnv, he.symm⟩

theorem not_acquire_mem_dlEvs {s : Nat} {b : Option Path} {sid : Nat} {dest : Path}
    {pend : List (String × String)} : Ev.acquire s b ∉ dlEvs sid dest pend := by
  intro h
  obtain ⟨nv, _, he⟩ := dlEvs_mem h
  exact Ev.noConfusion he

theorem not_close_mem_dlEvs {s : Nat} {sid : Nat} {dest : Path}
    {pend : List (String × String)} : Ev.closeE s ∉ dlEvs sid dest pend := by
  intro h
  obtain ⟨nv, _, he⟩ := dlEvs_mem h
  exact Ev.noConfusion he

theorem dlEvs_filter_acq (s sid : Nat) (dest : Path) (pend : List (String × String)) :
    (dlEvs sid dest pend).filter (evAcquires s) = [] := by
  rw [List.filter_eq_nil_iff]
  intro e he
  obtain ⟨nv, _, rfl⟩ := dlEvs_mem he
  simp [evAcquires]

theorem evAcquires_self (s : Nat) (b : Option Path) :
    evAcquires s (Ev.acquire s b) = true := by
  simp [evAcquires]

/-! ## C1: link classification -/

/-- C1 counterexample: the claim states that a link is a File iff its URL
contains `'download.aspx'` and no `'#'`.  The URL
`"default.aspxdownload.aspx"` contains both markers and no `'#'`, so by
the claim it would be a File, but the walk's `if is_folder ... elif
is_file` dispatch treats it as a Folder, not a File. -/
theorem classify_both_markers_folder :
    containsSub "default.aspxdownload.aspx" "download.aspx" = true
    ∧ hasHash "default.aspxdownload.aspx" = false
    ∧ classify "default.aspxdownload.aspx" ≠ Kind.file
    ∧ classify "default.aspxdownload.aspx" = Kind.folder := by
  refine ⟨by decide, by decide, by decide, by decide⟩

/-- C1 (amended): every link URL is classified as exactly one of Folder,
File, ignored.  It is a Folder iff it contains `'default.aspx'` and no
`'#'`; it is a File iff it contains `'download.aspx'`, no `'#'`, and does
not contain `'default.aspx'` (the Folder test takes priority); every other
link is ignored.  In particular no URL is ever treated as both. -/
theorem classify_exactly_one :
    ∀ u : String,
      (classify u = Kind.folder ↔
        (containsSub u "default.aspx" = true ∧ hasHash u = false))
      ∧ (classify u = Kind.file ↔
        (containsSub u "download.aspx" = true ∧ hasHash u = false
          ∧ containsSub u "default.aspx" = false))
      ∧ (classify u = Kind.ignored ↔
        ((containsSub u "default.aspx" = false
            ∧ containsSub u "download.aspx" = false)
          ∨ hasHash u = true)) := by
  intro u
  cases hd : containsSub u "default.aspx" <;>
    cases hl : containsSub u "download.aspx" <;>
      cases hh : hasHash u <;>
        simp [classify, is_folder, is_file, hd, hl, hh]

/-- C1 witness: the amended characterization applied to a concrete
file-marker URL. -/
theorem classify_exactly_one_witness :
    classify "x/download.aspx?id=1" = Kind.file :=
  (classify_exactly_one "x/download.aspx?id=1").2.1.mpr
    ⟨by decide, by decide, by decide⟩

/-! ## C7: completion watcher -/

theorem update_folder_run_inv (polls : List (List Button)) :
    ∀ s : WatchSt,
      (update_folder_run polls s).started ++ (update_folder_run polls s).todo
        = s.started ++ s.todo := by
  induction polls with
  | nil => intro s; rfl
  | cons bs ps ih =>
    intro s
    have hstep : (update_folder_step bs s).started ++ (update_folder_step bs s).todo
        = s.started ++ s.todo := by
      unfold update_folder_step
      match s with
      | ⟨st, none, td⟩ => rfl
      | ⟨st, some f, td⟩ =>
        by_cases hb : get_download_status bs = true
        · simp [hb]
        · simp only [Bool.not_eq_true] at hb
          simp only [hb]
          match td with
          | [] => simp
          | g :: rest => simp
    calc (update_folder_run (bs :: ps) s).started ++ (update_folder_run (bs :: ps) s).todo
        = (update_folder_run ps (update_folder_step bs s)).started
            ++ (update_folder_run ps (update_folder_step bs s)).todo := rfl
      _ = (update_folder_step bs s).started ++ (update_folder_step bs s).todo := ih _
      _ = s.started ++ s.todo := hstep

/-- C7: the completion watcher processes the pending set in its given
order, one file at a time: (1) over any sequence of poll observations, the
files triggered so far followed by the files not yet started always equal
the original pending set in order (no file is skipped, reordered, or
started while another is active); (2) while a 'Pause' control exists in
the downloads view the watcher stays on the first file — for every number
of polls `n`, so the wait has no upper bound; (3) when the 'Pause' control
has disappeared the current file is treated as done and the next file's
download is triggered. -/
theorem update_folder_sequential :
    (∀ (files : List (String × String)) (polls : List (List Button)),
      (update_folder_run polls (update_folder_start files)).started
        ++ (update_folder_run polls (update_folder_start files)).todo = files)
    ∧ (∀ (n : Nat) (f : String × String) (rest : List (String × String)),
      update_folder_run (List.replicate n [Button.mk "Pause"])
          (update_folder_start (f :: rest))
        = update_folder_start (f :: rest))
    ∧ (∀ (st : List (String × String)) (f g : String × String)
        (rest : List (String × String)),
      update_folder_step [] ⟨st, some f, g :: rest⟩ = ⟨st ++ [g], some g, rest⟩) := by
  refine ⟨?_, ?_, ?_⟩
  · intro files polls
    rw [update_folder_run_inv]
    match files with
    | [] => rfl
    | f :: rest => rfl
  · intro n f rest
    induction n with
    | zero => rfl
    | succ k ih =>
      rw [List.replicate_succ]
      have h1 : update_folder_run ([Button.mk "Pause"] :: List.replicate k [Button.mk "Pause"])
            (update_folder_start (f :: rest))
          = update_folder_run (List.replicate k [Button.mk "Pause"])
            (update_folder_step [Button.mk "Pause"] (update_folder_start (f :: rest))) := rfl
      have h2 : update_folder_step [Button.mk "Pause"] (update_folder_start (f :: rest))
          = update_folder_start (f :: rest) := rfl
      rw [h1, h2, ih]
  · intro st f g rest
    rfl

/-! ## C8: folder materializer -/

theorem pathExB_last (fs : FS) :
    ∀ (q : Path) (n : String) (base : Path),
      pathExB fs base (q ++ [n]) = true → memb n (fs (base ++ q)) = true
  | [], n, base => by
    simp only [List.nil_append, pathExB, Bool.and_eq_true, List.append_nil]
    exact fun h => h.1
  | a :: q', n, base => by
    simp only [List.cons_append, pathExB, Bool.and_eq_true]
    intro h
    have h2 := pathExB_last fs q' n (base ++ [a]) h.2
    have he : base ++ a :: q' = (base ++ [a]) ++ q' := by simp
    rw [he]
    exact h2

/-- C8: the folder materializer `_create_folders` is idempotent and
append-only: (1) when `n` is already listed in `path` it performs no
operation at all; (2) running it twice leaves exactly the state of running
it once; (3) after it runs, `n` is listed in `path`; (4) it never deletes
an existing entry: any entry of any existing directory (one reachable by a
chain of listed names) is still present afterwards. -/
theorem create_folders_idempotent :
    (∀ (fs : FS) (path : Path) (n : String),
      memb n (fs path) = true → create_folders fs path n = (fs, false))
    ∧ (∀ (fs : FS) (path : Path) (n : String),
      (create_folders (create_folders fs path n).1 path n).1
        = (create_folders fs path n).1)
    ∧ (∀ (fs : FS) (path : Path) (n : String),
      memb n ((create_folders fs path n).1 path) = true)
    ∧ (∀ (fs : FS) (path : Path) (n : String) (p : Path) (x : String),
      pathExB fs [] p = true → x ∈ fs p → x ∈ (create_folders fs path n).1 p) := by
  have habsent : ∀ (fs : FS) (path : Path) (n : String),
      memb n (fs path) = true → create_folders fs path n = (fs, false) := by
    intro fs path n h
    simp [create_folders, h]
  have hpresent : ∀ (fs : FS) (path : Path) (n : String),
      memb n ((create_folders fs path n).1 path) = true := by
    intro fs path n
    by_cases h : memb n (fs path) = true
    · simp [create_folders, h]
    · simp only [Bool.not_eq_true] at h
      have hval : (create_folders fs path n).1 path = fs path ++ [n] := by
        simp [create_folders, h]
      rw [hval]
      exact memb_append_self n (fs path)
  refine ⟨habsent, ?_, hpresent, ?_⟩
  · intro fs path n
    rw [habsent _ _ _ (hpresent fs path n)]
  · intro fs path n p x hex hx
    by_cases h : memb n (fs path) = true
    · simp [create_folders, h, hx]
    · simp only [Bool.not_eq_true] at h
      have hval : (create_folders fs path n).1 p
          = if p = path then fs path ++ [n]
            else if p = path ++ [n] then [] else fs p := by
        simp [create_folders, h]
      rw [hval]
      by_cases hp : p = path
      · rw [if_pos hp]
        rw [hp] at hx
        exact List.mem_append_left _ hx
      · rw [if_neg hp]
        by_cases hp2 : p = path ++ [n]
        · exfalso
          rw [hp2] at hex
          have := pathExB_last fs path n [] (by simpa using hex)
          simp only [List.nil_append] at this
          rw [this] at h
          exact Bool.noConfusion h
        · rw [if_neg hp2]
          exact hx

/-- C8 witness: the no-op case and the append-only case at concrete
inputs. -/
theorem create_folders_idempotent_witness :
    create_folders (fun _ => ["A"]) [] "A" = ((fun _ => ["A"]), false)
    ∧ "B" ∈ (create_folders (fun _ => ["A", "B"]) ["A"] "C").1 ["A"] :=
  ⟨create_folders_idempotent.1 (fun _ => ["A"]) [] "A" (by decide),
   create_folders_idempotent.2.2.2 (fun _ => ["A", "B"]) ["A"] "C" ["A"] "B"
     (by decide) (by decide)⟩

/-! ## C9: branch identifier normalization -/

theorem pySplit_ne_nil (sep : Char) : ∀ l : List Char, pySplit sep l ≠ []
  | [] => by simp [pySplit]
  | c :: cs => by
    by_cases h : c = sep
    · simp [pySplit, h]
    · simp only [pySplit, if_neg h]
      obtain ⟨p, ps, hp⟩ := List.exists_cons_of_ne_nil (pySplit_ne_nil sep cs)
      rw [hp]
      simp

theorem pySplit_headD (sep : Char) :
    ∀ l : List Char, (pySplit sep l).headD [] = l.takeWhile (fun c => !(c == sep))
  | [] => rfl
  | c :: cs => by
    by_cases h : c = sep
    · simp [pySplit, h, List.takeWhile_cons]
    · have hb : (c == sep) = false := by
        simp [h]
      simp only [pySplit, if_neg h, List.takeWhile_cons, hb, Bool.not_false, if_true]
      obtain ⟨p, ps, hp⟩ := List.exists_cons_of_ne_nil (pySplit_ne_nil sep cs)
      have ih := pySplit_headD sep cs
      rw [hp] at ih ⊢
      simp only [List.headD_cons] at ih ⊢
      rw [ih]

/-- C9: for every enumerated branch, the mapping key stored is the
normalized identifier `normKey module` (third conjunct: the enumeration
step stores `normKey m`), and `normKey` keeps exactly the characters
before the first `'/'`: for every identifier its normalized form is the
longest `'/'`-free prefix, and an identifier without `'/'` is stored
unchanged. -/
theorem normKey_first_segment :
    (∀ m : String, (normKey m).data = m.data.takeWhile (fun c => !(c == '/')))
    ∧ (∀ m : String, hasSlash m = false → normKey m = m)
    ∧ (∀ (m u : String) (rest : List (Option (String × String)))
        (urls : List (String × String)),
        containsSub u "Default.aspx" = true →
        find_all_go (some (m, u) :: rest) urls
          = find_all_go rest (pyInsert urls (normKey m) (pyReplace u "Module" "File"))) := by
  refine ⟨?_, ?_, ?_⟩
  · intro m
    by_cases h : hasSlash m = true
    · simp only [normKey, h, if_true]
      exact pySplit_headD '/' m.data
    · simp only [Bool.not_eq_true] at h
      simp only [normKey, h, Bool.false_eq_true, if_false]
      have hall : ∀ c ∈ m.data, (!(c == '/')) = true := by
        intro c hc
        simp only [hasSlash] at h
        rw [List.any_eq_false] at h
        have := h c hc
        simpa using this
      rw [takeWhile_all hall]
  · intro m h
    simp [normKey, h]
  · intro m u rest urls h
    simp [find_all_go, h]

/-- C9 witness: normalization at a separator-free identifier and the
enumeration step at an opened entry. -/
theorem normKey_first_segment_witness :
    normKey "CS2040" = "CS2040"
    ∧ find_all_go [some ("CS1/CS1S", "xDefault.aspx")] []
      = find_all_go [] (pyInsert [] (normKey "CS1/CS1S")
          (pyReplace "xDefault.aspx" "Module" "File")) :=
  ⟨normKey_first_segment.2.1 "CS2040" (by decide),
   normKey_first_segment.2.2 "CS1/CS1S" "xDefault.aspx" [] [] (by decide)⟩

/-! ## C10: entries without a link are skipped -/

theorem find_all_go_skip :
    ∀ (l1 l2 : List (Option (String × String))) (urls : List (String × String)),
      find_all_go (l1 ++ none :: l2) urls = find_all_go (l1 ++ l2) urls
  | [], l2, urls => rfl
  | none :: rest, l2, urls => by
    simp only [List.cons_append, find_all_go]
    exact find_all_go_skip rest l2 urls
  | some (m, u) :: rest, l2, urls => by
    simp only [List.cons_append, find_all_go]
    split
    · exact find_all_go_skip rest l2
        (pyInsert urls (normKey m) (pyReplace u "Module" "File"))
    · rfl

/-- C10: a top-level candidate entry with no link element (the
`NoSuchElementException` branch) is silently skipped: enumeration of any
entry list with such an entry removed is unchanged, so the entry never
terminates enumeration and never contributes to the returned mapping. -/
theorem find_all_skips_linkless_entries :
    ∀ l1 l2 : List (Option (String × String)),
      find_all_modules_files_urls (l1 ++ none :: l2)
        = find_all_modules_files_urls (l1 ++ l2) :=
  fun l1 l2 => find_all_go_skip l1 l2 []

/-! ## C6: early enumeration cutoff -/

theorem find_all_go_cutoff :
    ∀ (pre : List (Option (String × String))) (m u : String)
      (rest : List (Option (String × String))) (urls : List (String × String)),
      containsSub u "Default.aspx" = false →
      (∀ e ∈ pre, entryOpenB e = true) →
      find_all_go (pre ++ some (m, u) :: rest) urls = find_all_go pre urls
  | [], m, u, rest, urls => by
    intro h _
    simp [find_all_go, h]
  | none :: pre', m, u, rest, urls => by
    intro h hpre
    simp only [List.cons_append, find_all_go]
    exact find_all_go_cutoff pre' m u rest urls h
      (fun e he => hpre e (List.mem_cons_of_mem _ he))
  | some (m', u') :: pre', m, u, rest, urls => by
    intro h hpre
    have hop : containsSub u' "Default.aspx" = true :=
      hpre (some (m', u')) (List.mem_cons_self _ _)
    simp only [List.cons_append, find_all_go, hop, if_true]
    exact find_all_go_cutoff pre' m u rest
      (pyInsert urls (normKey m') (pyReplace u' "Module" "File")) h
      (fun e he => hpre e (List.mem_cons_of_mem _ he))

/-- C6: branch enumeration stops at the first entry whose URL fails the
`'Default.aspx'` opened check: if every entry of `pre` is either linkless
(skipped) or opened, and the next entry's URL fails the check, the
returned mapping is exactly the one produced from `pre` alone, regardless
of what follows — the early exit returns normally rather than raising. -/
theorem find_all_early_cutoff :
    ∀ (pre : List (Option (String × String))) (m u : String)
      (rest : List (Option (String × String))),
      containsSub u "Default.aspx" = false →
      (∀ e ∈ pre, entryOpenB e = true) →
      find_all_modules_files_urls (pre ++ some (m, u) :: rest)
        = find_all_modules_files_urls pre :=
  fun pre m u rest h hpre => find_all_go_cutoff pre m u rest [] h hpre

/-! ## Walk lemmas: session counter and event trace -/

mutual
theorem walkLink_ctr_le : ∀ (l : Link) (path : Path) (fs : FS) (ctr : Nat),
    ctr ≤ (walkLink l path fs ctr).ctr
  | Link.mk text url cs, path, fs, ctr => by
    cases hc : classify url <;> simp only [walkLink, hc]
    case folder =>
      have h := walkList_ctr_le cs (path ++ [text])
        (create_folders fs path text).1 (ctr + 1) []
      omega
    case file => exact Nat.le_refl ctr
    case ignored => exact Nat.le_refl ctr

theorem walkList_ctr_le : ∀ (ls : LinkList) (path : Path) (fs : FS) (ctr : Nat)
    (acc : List (String × String)), ctr ≤ (walkList ls path fs ctr acc).ctr
  | LinkList.nil, _, _, ctr, _ => Nat.le_refl ctr
  | LinkList.cons l ls, path, fs, ctr, acc => by
    simp only [walkList]
    have h1 := walkLink_ctr_le l path fs ctr
    have h2 := walkList_ctr_le ls path (walkLink l path fs ctr).fs
      (walkLink l path fs ctr).ctr
      (match (walkLink l path fs ctr).cand with
       | none => acc
       | some kv => pyInsert acc kv.1 kv.2)
    omega
end

mutual
theorem walkLink_acq : ∀ (l : Link) (path : Path) (fs : FS) (ctr s : Nat) (b : Option Path),
    Ev.acquire s b ∈ (walkLink l path fs ctr).trace →
    ctr ≤ s ∧ s < (walkLink l path fs ctr).ctr
      ∧ ∃ (p : Path) (n : String), b = some (p ++ [n])
  | Link.mk text url cs, path, fs, ctr, s, b => by
    cases hc : classify url <;> simp only [walkLink, hc] <;> intro h
    case folder =>
      have hctr := walkList_ctr_le cs (path ++ [text])
        (create_folders fs path text).1 (ctr + 1) []
      simp only [List.mem_append, List.mem_cons, List.mem_singleton, List.not_mem_nil, or_false] at h
      rcases h with h | h | h | h | h | h
      · have := (mem_ite_nil_elim h).2
        simp at this
      · rw [Ev.acquire.injEq] at h
        obtain ⟨rfl, rfl⟩ := h
        exact ⟨Nat.le_refl s, by omega, path, text, rfl⟩
      · have ih := walkList_acq cs (path ++ [text])
          (create_folders fs path text).1 (ctr + 1) [] s b h
        exact ⟨by omega, ih.2.1, ih.2.2⟩
      · exact absurd h (by simp)
      · exact absurd h not_acquire_mem_dlEvs
      · exact absurd h (by simp)
    case file => exact absurd h (List.not_mem_nil _)
    case ignored => exact absurd h (List.not_mem_nil _)

theorem walkList_acq : ∀ (ls : LinkList) (path : Path) (fs : FS) (ctr : Nat)
    (acc : List (String × String)) (s : Nat) (b : Option Path),
    Ev.acquire s b ∈ (walkList ls path fs ctr acc).trace →
    ctr ≤ s ∧ s < (walkList ls path fs ctr acc).ctr
      ∧ ∃ (p : Path) (n : String), b = some (p ++ [n])
  | LinkList.nil, _, _, ctr, acc, s, b => by
    intro h
    exact absurd h (List.not_mem_nil _)
  | LinkList.cons l ls, path, fs, ctr, acc, s, b => by
    simp only [walkList]
    intro h
    have h1 := walkLink_ctr_le l path fs ctr
    have h2 := walkList_ctr_le ls path (walkLink l path fs ctr).fs
      (walkLink l path fs ctr).ctr
      (match (walkLink l path fs ctr).cand with
       | none => acc
       | some kv => pyInsert acc kv.1 kv.2)
    rw [List.mem_append] at h
    rcases h with h | h
    · have ih := walkLink_acq l path fs ctr s b h
      exact ⟨ih.1, by omega, ih.2.2⟩
    · have ih := walkList_acq ls path (walkLink l path fs ctr).fs
        (walkLink l path fs ctr).ctr
        (match (walkLink l path fs ctr).cand with
         | none => acc
         | some kv => pyInsert acc kv.1 kv.2) s b h
      exact ⟨by omega, ih.2.1, ih.2.2⟩
end

theorem folder_trace_acq_cases {mkcond : Bool} {path : Path} {text : String}
    {ctr s : Nat} {b : Option Path} {t2 : List Ev} {pend : List (String × String)}
    {fp : Path}
    (h : Ev.acquire s b ∈ ((if mkcond = true then [Ev.mkdirE path text] else [])
        ++ Ev.acquire ctr (some fp) :: (t2 ++ Ev.handPending ctr pend ::
          (dlEvs ctr fp pend ++ [Ev.closeE ctr])))) :
    (s = ctr ∧ b = some fp) ∨ Ev.acquire s b ∈ t2 := by
  simp only [List.mem_append, List.mem_cons, List.mem_singleton, List.not_mem_nil, or_false] at h
  rcases h with h | h | h | h | h | h
  · have := (mem_ite_nil_elim h).2
    simp at this
  · rw [Ev.acquire.injEq] at h
    exact Or.inl h
  · exact Or.inr h
  · exact absurd h (by simp)
  · exact absurd h not_acquire_mem_dlEvs
  · exact absurd h (by simp)

theorem folder_trace_close_cases {mkcond : Bool} {path : Path} {text : String}
    {ctr s : Nat} {t2 : List Ev} {pend : List (String × String)} {fp : Path}
    (h : Ev.closeE s ∈ ((if mkcond = true then [Ev.mkdirE path text] else [])
        ++ Ev.acquire ctr (some fp) :: (t2 ++ Ev.handPending ctr pend ::
          (dlEvs ctr fp pend ++ [Ev.closeE ctr])))) :
    Ev.closeE s ∈ t2 ∨ s = ctr := by
  simp only [List.mem_append, List.mem_cons, List.mem_singleton, List.not_mem_nil, or_false] at h
  rcases h with h | h | h | h | h | h
  · have := (mem_ite_nil_elim h).2
    simp at this
  · exact absurd h (by simp)
  · exact Or.inl h
  · exact absurd h (by simp)
  · exact absurd h not_close_mem_dlEvs
  · rw [Ev.closeE.injEq] at h
    exact Or.inr h

mutual
theorem walkLink_acq_uniq : ∀ (l : Link) (path : Path) (fs : FS) (ctr s : Nat)
    (b b' : Option Path),
    Ev.acquire s b ∈ (walkLink l path fs ctr).trace →
    Ev.acquire s b' ∈ (walkLink l path fs ctr).trace → b = b'
  | Link.mk text url cs, path, fs, ctr, s, b, b' => by
    cases hc : classify url <;> simp only [walkLink, hc] <;> intro h h'
    case folder =>
      have hcas := folder_trace_acq_cases h
      have hcas' := folder_trace_acq_cases h'
      rcases hcas with ⟨hs, hb⟩ | h2
      · rcases hcas' with ⟨hs', hb'⟩ | h2'
        · rw [hb, hb']
        · have := (walkList_acq cs (path ++ [text])
            (create_folders fs path text).1 (ctr + 1) [] s b' h2').1
          omega
      · rcases hcas' with ⟨hs', hb'⟩ | h2'
        · have := (walkList_acq cs (path ++ [text])
            (create_folders fs path text).1 (ctr + 1) [] s b h2).1
          omega
        · exact walkList_acq_uniq cs (path ++ [text])
            (create_folders fs path text).1 (ctr + 1) [] s b b' h2 h2'
    case file => exact absurd h (List.not_mem_nil _)
    case ignored => exact absurd h (List.not_mem_nil _)

theorem walkList_acq_uniq : ∀ (ls : LinkList) (path : Path) (fs : FS) (ctr : Nat)
    (acc : List (String × String)) (s : Nat) (b b' : Option Path),
    Ev.acquire s b ∈ (walkList ls path fs ctr acc).trace →
    Ev.acquire s b' ∈ (walkList ls path fs ctr acc).trace → b = b'
  | LinkList.nil, _, _, ctr, acc, s, b, b' => by
    intro h
    exact absurd h (List.not_mem_nil _)
  | LinkList.cons l ls, path, fs, ctr, acc, s, b, b' => by
    simp only [walkList]
    intro h h'
    rw [List.mem_append] at h h'
    rcases h with h | h
    · rcases h' with h' | h'
      · exact walkLink_acq_uniq l path fs ctr s b b' h h'
      · have hb1 := (walkLink_acq l path fs ctr s b h).2.1
        have hb2 := (walkList_acq ls path (walkLink l path fs ctr).fs
          (walkLink l path fs ctr).ctr
          (match (walkLink l path fs ctr).cand with
           | none => acc
           | some kv => pyInsert acc kv.1 kv.2) s b' h').1
        omega
    · rcases h' with h' | h'
      · have hb1 := (walkLink_acq l path fs ctr s b' h').2.1
        have hb2 := (walkList_acq ls path (walkLink l path fs ctr).fs
          (walkLink l path fs ctr).ctr
          (match (walkLink l path fs ctr).cand with
           | none => acc
           | some kv => pyInsert acc kv.1 kv.2) s b h).1
        omega
      · exact walkList_acq_uniq ls path (walkLink l path fs ctr).fs
          (walkLink l path fs ctr).ctr
          (match (walkLink l path fs ctr).cand with
           | none => acc
           | some kv => pyInsert acc kv.1 kv.2) s b b' h h'
end

mutual
theorem walkLink_close_hand : ∀ (l : Link) (path : Path) (fs : FS) (ctr s : Nat),
    Ev.closeE s ∈ (walkLink l path fs ctr).trace →
    ∃ p : List (String × String),
      List.Sublist [Ev.handPending s p, Ev.closeE s] (walkLink l path fs ctr).trace
  | Link.mk text url cs, path, fs, ctr, s => by
    cases hc : classify url <;> simp only [walkLink, hc] <;> intro h
    case folder =>
      rcases folder_trace_close_cases h with h2 | heq
      · obtain ⟨p, hp⟩ := walkList_close_hand cs (path ++ [text])
          (create_folders fs path text).1 (ctr + 1) [] s h2
        exact ⟨p, sublist_app_r ((sublist_app_l hp).cons _)⟩
      · subst heq
        refine ⟨(walkList cs (path ++ [text])
          (create_folders fs path text).1 (s + 1) []).pend, ?_⟩
        refine sublist_app_r (List.Sublist.cons _ (sublist_app_r ?_))
        exact List.Sublist.cons₂ _ (List.sublist_append_right _ _)
    case file => exact absurd h (List.not_mem_nil _)
    case ignored => exact absurd h (List.not_mem_nil _)

theorem walkList_close_hand : ∀ (ls : LinkList) (path : Path) (fs : FS) (ctr : Nat)
    (acc : List (String × String)) (s : Nat),
    Ev.closeE s ∈ (walkList ls path fs ctr acc).trace →
    ∃ p : List (String × String),
      List.Sublist [Ev.handPending s p, Ev.closeE s] (walkList ls path fs ctr acc).trace
  | LinkList.nil, _, _, ctr, acc, s => by
    intro h
    exact absurd h (List.not_mem_nil _)
  | LinkList.cons l ls, path, fs, ctr, acc, s => by
    simp only [walkList]
    intro h
    rw [List.mem_append] at h
    rcases h with h | h
    · obtain ⟨p, hp⟩ := walkLink_close_hand l path fs ctr s h
      exact ⟨p, sublist_app_l hp⟩
    · obtain ⟨p, hp⟩ := walkList_close_hand ls path (walkLink l path fs ctr).fs
        (walkLink l path fs ctr).ctr
        (match (walkLink l path fs ctr).cand with
         | none => acc
         | some kv => pyInsert acc kv.1 kv.2) s h
      exact ⟨p, sublist_app_r hp⟩
end

theorem evLocal_weaken : ∀ (path : Path) (t : String) (e : Ev),
    evLocal (path ++ [t]) e → evLocal path e := by
  intro path t e
  cases e with
  | mkdirE p n =>
    simp only [evLocal, List.length_append, List.length_cons, List.length_nil]
    omega
  | enterB m => exact id
  | acquire s b => exact fun _ => trivial
  | handPending s p => exact fun _ => trivial
  | download s d n u => exact fun _ => trivial
  | closeE s => exact fun _ => trivial

mutual
theorem walkLink_evLocal : ∀ (l : Link) (path : Path) (fs : FS) (ctr : Nat),
    ∀ e ∈ (walkLink l path fs ctr).trace, evLocal path e
  | Link.mk text url cs, path, fs, ctr => by
    cases hc : classify url <;> simp only [walkLink, hc] <;> intro e h
    case folder =>
      simp only [List.mem_append, List.mem_cons, List.mem_singleton, List.not_mem_nil, or_false] at h
      rcases h with h | h | h | h | h | h
      · obtain ⟨_, h2⟩ := mem_ite_nil_elim h
        rw [List.mem_singleton] at h2
        subst h2
        exact Nat.le_refl _
      · subst h
        trivial
      · exact evLocal_weaken path text e
          (walkList_evLocal cs (path ++ [text])
            (create_folders fs path text).1 (ctr + 1) [] e h)
      · subst h
        trivial
      · obtain ⟨nv, _, rfl⟩ := dlEvs_mem h
        trivial
      · subst h
        trivial
    case file => exact absurd h (List.not_mem_nil _)
    case ignored => exact absurd h (List.not_mem_nil _)

theorem walkList_evLocal : ∀ (ls : LinkList) (path : Path) (fs : FS) (ctr : Nat)
    (acc : List (String × String)),
    ∀ e ∈ (walkList ls path fs ctr acc).trace, evLocal path e
  | LinkList.nil, _, _, ctr, acc => by
    intro e h
    exact absurd h (List.not_mem_nil _)
  | LinkList.cons l ls, path, fs, ctr, acc => by
    simp only [walkList]
    intro e h
    rw [List.mem_append] at h
    rcases h with h | h
    · exact walkLink_evLocal l path fs ctr e h
    · exact walkList_evLocal ls path (walkLink l path fs ctr).fs
        (walkLink l path fs ctr).ctr
        (match (walkLink l path fs ctr).cand with
         | none => acc
         | some kv => pyInsert acc kv.1 kv.2) e h
end

/-! ## Page-level corollaries for `download_files_from_url` -/

theorem download_files_acq {dflt : Path} {links : LinkList} {path : Path} {sid : Nat}
    {binding : Option Path} {fs : FS} {ctr s : Nat} {b : Option Path}
    (h : Ev.acquire s b ∈ (download_files_from_url dflt links path sid binding fs ctr).trace) :
    ctr ≤ s ∧ s < (download_files_from_url dflt links path sid binding fs ctr).ctr
      ∧ ∃ (p : Path) (n : String), b = some (p ++ [n]) := by
  simp only [download_files_from_url] at h ⊢
  simp only [List.mem_append, List.mem_cons, List.mem_singleton, List.not_mem_nil, or_false] at h
  rcases h with h | h | h | h
  · exact walkList_acq links path fs ctr [] s b h
  · exact absurd h (by simp)
  · exact absurd h not_acquire_mem_dlEvs
  · exact absurd h (by simp)

theorem download_files_acq_uniq {dflt : Path} {links : LinkList} {path : Path}
    {sid : Nat} {binding : Option Path} {fs : FS} {ctr s : Nat} {b b' : Option Path}
    (h : Ev.acquire s b ∈ (download_files_from_url dflt links path sid binding fs ctr).trace)
    (h' : Ev.acquire s b' ∈ (download_files_from_url dflt links path sid binding fs ctr).trace) :
    b = b' := by
  simp only [download_files_from_url] at h h'
  simp only [List.mem_append, List.mem_cons, List.mem_singleton, List.not_mem_nil, or_false] at h h'
  rcases h with h | h | h | h
  · rcases h' with h' | h' | h' | h'
    · exact walkList_acq_uniq links path fs ctr [] s b b' h h'
    · exact absurd h' (by simp)
    · exact absurd h' not_acquire_mem_dlEvs
    · exact absurd h' (by simp)
  · exact absurd h (by simp)
  · exact absurd h not_acquire_mem_dlEvs
  · exact absurd h (by simp)

theorem download_files_close_hand {dflt : Path} {links : LinkList} {path : Path}
    {sid : Nat} {binding : Option Path} {fs : FS} {ctr s : Nat}
    (h : Ev.closeE s ∈ (download_files_from_url dflt links path sid binding fs ctr).trace) :
    ∃ p : List (String × String),
      List.Sublist [Ev.handPending s p, Ev.closeE s]
        (download_files_from_url dflt links path sid binding fs ctr).trace := by
  simp only [download_files_from_url] at h ⊢
  simp only [List.mem_append, List.mem_cons, List.mem_singleton, List.not_mem_nil, or_false] at h
  rcases h with h | h | h | h
  · obtain ⟨p, hp⟩ := walkList_close_hand links path fs ctr [] s h
    exact ⟨p, sublist_app_l hp⟩
  · exact absurd h (by simp)
  · exact absurd h not_close_mem_dlEvs
  · rw [Ev.closeE.injEq] at h
    subst h
    refine ⟨(walkList links path fs ctr []).pend, ?_⟩
    exact sublist_app_r (List.Sublist.cons₂ _ (List.sublist_append_right _ _))

theorem download_files_evLocal {dflt : Path} {links : LinkList} {path : Path}
    {sid : Nat} {binding : Option Path} {fs : FS} {ctr : Nat} :
    ∀ e ∈ (download_files_from_url dflt links path sid binding fs ctr).trace,
      evLocal path e := by
  intro e h
  simp only [download_files_from_url] at h
  simp only [List.mem_append, List.mem_cons, List.mem_singleton, List.not_mem_nil, or_false] at h
  rcases h with h | h | h | h
  · exact walkList_evLocal links path fs ctr [] e h
  · subst h
    trivial
  · obtain ⟨nv, _, rfl⟩ := dlEvs_mem h
    trivial
  · subst h
    trivial

/-- C6 witness: a concrete remote list where the third linked entry fails
the opened check; enumeration returns just the branches before it. -/
theorem find_all_early_cutoff_witness :
    find_all_modules_files_urls
        [some ("CS1", "aDefault.aspx"), none, some ("CS2", "bDefault.aspx"),
          some ("CS3", "closed"), some ("CS4", "cDefault.aspx")]
      = find_all_modules_files_urls
        [some ("CS1", "aDefault.aspx"), none, some ("CS2", "bDefault.aspx")] :=
  find_all_early_cutoff
    [some ("CS1", "aDefault.aspx"), none, some ("CS2", "bDefault.aspx")]
    "CS3" "closed" [some ("CS4", "cDefault.aspx")] (by decide) (by decide)

/-! ## C5 machinery: enter-trace and mkdir-locality of the branch loop -/

theorem enterNames_append (a b : List Ev) :
    enterNames (a ++ b) = enterNames a ++ enterNames b := by
  simp [enterNames]

theorem enterNames_cons_enter (m : String) (t : List Ev) :
    enterNames (Ev.enterB m :: t) = m :: enterNames t := by
  simp [enterNames]

theorem enterNames_cons_acquire (s : Nat) (b : Option Path) (t : List Ev) :
    enterNames (Ev.acquire s b :: t) = enterNames t := by
  simp [enterNames]

theorem enterNames_mkE (c : Bool) (p : Path) (n : String) :
    enterNames (if c = true then [Ev.mkdirE p n] else []) = [] := by
  cases c <;> simp [enterNames]

theorem enterNames_eq_nil_of_local {path : Path} {t : List Ev}
    (h : ∀ e ∈ t, evLocal path e) : enterNames t = [] := by
  simp only [enterNames, List.filterMap_eq_nil_iff]
  intro e he
  match e, h e he with
  | Ev.enterB m, hf => exact hf.elim
  | Ev.acquire a b, _ => rfl
  | Ev.mkdirE a b, _ => rfl
  | Ev.handPending a b, _ => rfl
  | Ev.download a b c d, _ => rfl
  | Ev.closeE a, _ => rfl

theorem no_root_mkdir_in_walk {dflt : Path} {links : LinkList} {root : Path}
    {m m' : String} {sid : Nat} {binding : Option Path} {fs : FS} {ctr : Nat}
    (h : Ev.mkdirE root m' ∈
      (download_files_from_url dflt links (root ++ [m]) sid binding fs ctr).trace) :
    False := by
  have hl := download_files_evLocal _ h
  simp only [evLocal, List.length_append, List.length_cons, List.length_nil] at hl
  omega

theorem download_modules_cons_true {dflt root : Path} {sl : List String}
    {m u : String} {links : LinkList} {rest : List (String × String × LinkList)}
    {fs : FS} {ctr sid : Nat} (hm : memb m sl = true) {out' : PageRes}
    (hrec : download_modules dflt root (some sl) rest
        (download_files_from_url dflt links (root ++ [m]) sid none
          (create_folders fs root m).1 ctr).fs
        ((download_files_from_url dflt links (root ++ [m]) sid none
          (create_folders fs root m).1 ctr).ctr + 1)
        (download_files_from_url dflt links (root ++ [m]) sid none
          (create_folders fs root m).1 ctr).ctr
      = Except.ok out') :
    download_modules dflt root (some sl) ((m, u, links) :: rest) fs ctr sid
      = Except.ok ⟨out'.fs, out'.ctr,
          (if (create_folders fs root m).2 = true then [Ev.mkdirE root m] else [])
            ++ Ev.enterB m :: ((download_files_from_url dflt links (root ++ [m]) sid none
                (create_folders fs root m).1 ctr).trace
              ++ Ev.acquire (download_files_from_url dflt links (root ++ [m]) sid none
                  (create_folders fs root m).1 ctr).ctr none :: out'.trace)⟩ := by
  simp only [download_modules]
  rw [if_pos hm, hrec]

/-- C5: with a selection list, `_download_modules` syncs exactly the
branches of the enumerated mapping whose identifier is in the selection,
in mapping order; non-matching branches are skipped; unknown identifiers
cause no error (the run returns normally for every selection); and a
directory is created at the root only for selected branch names, so a
skipped branch's directory is never created. -/
theorem download_modules_selection : ∀ (dflt root : Path) (sl : List String)
    (branches : List (String × String × LinkList)) (fs : FS) (ctr sid : Nat),
    ∃ out : PageRes,
      download_modules dflt root (some sl) branches fs ctr sid = Except.ok out
      ∧ enterNames out.trace
          = (branches.filter (fun b => memb b.1 sl)).map (fun b => b.1)
      ∧ (∀ m : String, Ev.mkdirE root m ∈ out.trace → memb m sl = true)
  | dflt, root, sl, [], fs, ctr, sid =>
    ⟨⟨fs, ctr, []⟩, rfl, rfl, fun m h => absurd h (List.not_mem_nil _)⟩
  | dflt, root, sl, (m, u, links) :: rest, fs, ctr, sid => by
    cases hm : memb m sl
    case false =>
      have ih := download_modules_selection dflt root sl rest fs ctr sid
      obtain ⟨out', hout', hen', hmk'⟩ := ih
      refine ⟨out', ?_, ?_, hmk'⟩
      · simp only [download_modules]
        rw [if_neg (by simp [hm]), hout']
      · rw [hen']
        simp [List.filter_cons, hm]
    case true =>
      have ih := download_modules_selection dflt root sl rest
        (download_files_from_url dflt links (root ++ [m]) sid none
          (create_folders fs root m).1 ctr).fs
        ((download_files_from_url dflt links (root ++ [m]) sid none
          (create_folders fs root m).1 ctr).ctr + 1)
        (download_files_from_url dflt links (root ++ [m]) sid none
          (create_folders fs root m).1 ctr).ctr
      obtain ⟨out', hout', hen', hmk'⟩ := ih
      refine ⟨_, download_modules_cons_true hm hout', ?_, ?_⟩
      · have hw : enterNames (download_files_from_url dflt links (root ++ [m]) sid none
            (create_folders fs root m).1 ctr).trace = [] :=
          enterNames_eq_nil_of_local (fun e he => download_files_evLocal e he)
        rw [enterNames_append, enterNames_mkE, enterNames_cons_enter,
          enterNames_append, hw, enterNames_cons_acquire, hen']
        simp [List.filter_cons, hm]
      · intro m'' h
        simp only [List.mem_append, List.mem_cons, List.not_mem_nil, or_false] at h
        rcases h with h | h | h | h | h
        · obtain ⟨_, h2⟩ := mem_ite_nil_elim h
          rw [List.mem_singleton] at h2
          rw [Ev.mkdirE.injEq] at h2
          rw [h2.2]
          exact hm
        · exact absurd h (by simp)
        · exact absurd h (fun hh => no_root_mkdir_in_walk hh)
        · exact absurd h (by simp)
        · exact hmk' m'' h

/-- C5 witness: selection `["CS101"]` over a two-branch mapping enters
exactly `CS101`. -/
theorem download_modules_selection_witness :
    ∃ out : PageRes,
      download_modules ["dflt"] ["root"] (some ["CS101"])
          [("CS101", "u1", LinkList.nil), ("CS102", "u2", LinkList.nil)]
          (fun _ => []) 1 0 = Except.ok out
      ∧ enterNames out.trace = ["CS101"] := by
  obtain ⟨out, h1, h2, h3⟩ := download_modules_selection ["dflt"] ["root"] ["CS101"]
    [("CS101", "u1", LinkList.nil), ("CS102", "u2", LinkList.nil)] (fun _ => []) 1 0
  refine ⟨out, h1, ?_⟩
  rw [h2]
  decide

/-! ## C3: session lifecycle of the folder walk -/

/-- C3: in every invocation of the folder walk, (1) every session closed in
the trace first had its pending-downloads set — possibly empty — handed to
the completion watcher: the handoff and the close occur in this order;
(2) each session is bound to a single download directory for its whole
lifetime: two acquisitions of the same session id carry the same binding;
(3) every session acquired inside the walk is fresh (numbered from the
current counter on, below the returned counter) and is bound to a child
path `p ++ [n]`; (4) a folder child is first materialized (created iff its
name is absent from the current listing) and then recursed into with a
freshly acquired session bound to that child's path; (5) a walk of an
empty listing still hands its (empty) pending set to the watcher and then
closes its session. -/
theorem download_files_session_lifecycle :
    ∀ (dflt : Path) (links : LinkList) (path : Path) (sid : Nat)
      (binding : Option Path) (fs : FS) (ctr : Nat),
      (∀ s : Nat,
        Ev.closeE s ∈ (download_files_from_url dflt links path sid binding fs ctr).trace →
        ∃ p : List (String × String),
          List.Sublist [Ev.handPending s p, Ev.closeE s]
            (download_files_from_url dflt links path sid binding fs ctr).trace)
      ∧ (∀ (s : Nat) (b b' : Option Path),
        Ev.acquire s b ∈ (download_files_from_url dflt links path sid binding fs ctr).trace →
        Ev.acquire s b' ∈ (download_files_from_url dflt links path sid binding fs ctr).trace →
        b = b')
      ∧ (∀ (s : Nat) (b : Option Path),
        Ev.acquire s b ∈ (download_files_from_url dflt links path sid binding fs ctr).trace →
        ctr ≤ s ∧ s < (download_files_from_url dflt links path sid binding fs ctr).ctr
          ∧ ∃ (p : Path) (n : String), b = some (p ++ [n]))
      ∧ (∀ (text url : String) (cs : LinkList) (p2 : Path) (fs2 : FS) (c2 : Nat),
        classify url = Kind.folder →
        ∃ rest : List Ev,
          (walkLink (Link.mk text url cs) p2 fs2 c2).trace
            = (if memb text (fs2 p2) = true then ([] : List Ev)
                else [Ev.mkdirE p2 text])
              ++ Ev.acquire c2 (some (p2 ++ [text])) :: rest)
      ∧ (download_files_from_url dflt LinkList.nil path sid binding fs ctr).trace
          = [Ev.handPending sid [], Ev.closeE sid] := by
  intro dflt links path sid binding fs ctr
  refine ⟨?_, ?_, ?_, ?_, ?_⟩
  · intro s h
    exact download_files_close_hand h
  · intro s b b' h h'
    exact download_files_acq_uniq h h'
  · intro s b h
    exact download_files_acq h
  · intro text url cs p2 fs2 c2 hc
    refine ⟨(walkList cs (p2 ++ [text]) (create_folders fs2 p2 text).1 (c2 + 1) []).trace
        ++ Ev.handPending c2
            (walkList cs (p2 ++ [text]) (create_folders fs2 p2 text).1 (c2 + 1) []).pend
          :: (dlEvs c2 (p2 ++ [text])
              (walkList cs (p2 ++ [text]) (create_folders fs2 p2 text).1 (c2 + 1) []).pend
            ++ [Ev.closeE c2]), ?_⟩
    cases hm : memb text (fs2 p2) <;> simp [walkLink, hc, create_folders, hm]
  · rfl

/-- C3 witness: the lifecycle properties exercised on a concrete
one-folder-one-file walk. -/
theorem download_files_session_lifecycle_witness :
    (∃ p : List (String × String),
      List.Sublist [Ev.handPending 1 p, Ev.closeE 1] exPageC3.trace)
    ∧ (1 ≤ 1 ∧ 1 < exPageC3.ctr ∧ ∃ (p : Path) (n : String),
        (some ["r", "A"] : Option Path) = some (p ++ [n]))
    ∧ (∃ rest : List Ev,
        (walkLink (Link.mk "A" "a/default.aspx"
            (LinkList.cons (Link.mk "f" "b/download.aspx" LinkList.nil) LinkList.nil))
          ["r"] (fun _ => []) 1).trace
          = (if memb "A" ([] : List String) = true then ([] : List Ev)
              else [Ev.mkdirE ["r"] "A"])
            ++ Ev.acquire 1 (some (["r"] ++ ["A"])) :: rest) :=
  ⟨(download_files_session_lifecycle ["D"] exLinksC3 ["r"] 0 none (fun _ => []) 1).1
      1 (by decide),
   (download_files_session_lifecycle ["D"] exLinksC3 ["r"] 0 none (fun _ => []) 1).2.2.1
      1 (some ["r", "A"]) (by decide),
   (download_files_session_lifecycle ["D"] exLinksC3 ["r"] 0 none (fun _ => []) 1).2.2.2.1
      "A" "a/default.aspx"
      (LinkList.cons (Link.mk "f" "b/download.aspx" LinkList.nil) LinkList.nil)
      ["r"] (fun _ => []) 1 (by decide)⟩

/-! ## C2: idempotence of the sync fails at branch top level -/

/-- C2 (code-bug evaluation): the branch-level walk is run with the
session `start` acquired, which has no download-directory preference, so a
branch's top-level missing file is fetched into the default directory
`["dflt"]` and never lands in the checked branch directory
`["root", "CS101"]`.  Consequently a second run against the unchanged
remote tree issues the very same download again, contradicting the claimed
idempotence (while the claim's first part holds: only files absent from
the checked listing are ever downloaded — the file is re-downloaded
precisely because it is still absent there). -/
theorem branch_root_file_redownloaded_every_run :
    downloadsOf exRun1C2.trace
      = [Ev.download 0 ["dflt"] "fileY" "http://x/download.aspx?id=1"]
    ∧ downloadsOf exRun2C2.trace
      = [Ev.download 0 ["dflt"] "fileY" "http://x/download.aspx?id=1"]
    ∧ memb "fileY" (exRun1C2.fs ["root", "CS101"]) = false
    ∧ memb "fileY" (exRun1C2.fs ["dflt"]) = true := by
  refine ⟨by decide, by decide, by decide, by decide⟩

/-! ## C4: starting with no selection crashes from the CLI -/

/-- C4 (code-bug evaluation): `__main__` always calls
`start(args.modules)`, so with the `-m` option absent `start` receives the
one-element tuple `(None,)`, which is truthy, and
`_download_modules(None, driver)` raises `TypeError` at its first
membership test — no branch is synced.  The `_download_all` path that the
claim describes is only reached by calling `start()` with no arguments, in
which case every branch of the mapping is entered in mapping order. -/
theorem main_no_selection_typeerror :
    mainRun ["dflt"] ["root"] none exBranchesC4 (fun _ => []) 1 0
      = Except.error "TypeError: argument of type NoneType is not iterable"
    ∧ (∃ out : PageRes,
        startRun ["dflt"] ["root"] [] exBranchesC4 (fun _ => []) 1 0 = Except.ok out
        ∧ enterNames out.trace = ["CS101", "CS102"]) :=
  ⟨rfl, ⟨download_all ["dflt"] ["root"] exBranchesC4 (fun _ => []) 1 0, rfl, by decide⟩⟩

end IvleDownloader
